import Mathlib

/-!
# Verification of the breach-browser ingestion pipeline

Shallow embedding of the core of `src/app.py`: the line-preserving chunker
(`TextSearchEngine.chunk_text`), the resumable document generator with its
progress ledger (`generate_documents` inside `index_directory`), the batch
submitter (the bulk-indexing loop of `index_directory`), the
percent-complete computation of the `/indexing-status` endpoint, and the
lock discipline of the shared progress record.

Machine text is modelled as Lean `String` (a list of unicode scalar
values, as in Python 3 `str`); byte sizes are UTF-8 encoded sizes.
-/

namespace BreachBrowser

/-- UTF-8 byte length of a string: models Python `len(s.encode('utf-8'))`. -/
def utf8Len (s : String) : Nat := (s.data.map Char.utf8Size).sum

/-- The line-boundary characters of Python `str.splitlines`:
`\n`, `\r`, `\v`, `\f`, file/group/record separators, NEL, LS, PS
(`\r\n` is treated as a single boundary by `splitGo` below). -/
def isLineBreak (c : Char) : Bool :=
  c = '\n' || c = '\r' || c = '\x0b' || c = '\x0c' || c = '\x1c' ||
  c = '\x1d' || c = '\x1e' || c = '\x85' || c = ' ' || c = ' '

/-- Worker for Python `str.splitlines` over the character list: `acc` holds
the current line reversed.  A `\r\n` pair is one boundary; a boundary at the
very end of the input does not open a new (empty) line. -/
def splitGo : List Char → List Char → List (List Char)
  | [], acc => [acc.reverse]
  | [c], acc =>
    if isLineBreak c then [acc.reverse] else [(c :: acc).reverse]
  | c1 :: c2 :: rest, acc =>
    if c1 = '\r' && c2 = '\n' then
      acc.reverse :: (if rest.isEmpty then [] else splitGo rest [])
    else if isLineBreak c1 then
      acc.reverse :: splitGo (c2 :: rest) []
    else splitGo (c2 :: rest) (c1 :: acc)

/-- Python `str.splitlines` on a character list: the empty input yields no
lines at all. -/
def splitLinesList (cs : List Char) : List (List Char) :=
  if cs.isEmpty then [] else splitGo cs []

/-- Python `text.splitlines()` (src/app.py line 123). -/
def pySplitlines (s : String) : List String := (splitLinesList s.data).map String.mk

/-- Python `'\n'.join(chunks)` (src/app.py lines 131 and 140). -/
def joinNl : List String → String
  | [] => ""
  | [a] => a
  | a :: b :: rest => a ++ "\n" ++ joinNl (b :: rest)

/-- The accumulation loop of `TextSearchEngine.chunk_text`
(src/app.py lines 127-140), returning each flushed `current_chunk` as a
group of lines (the source joins each group with `'\n'` at flush time;
`chunk_text` below applies that join).  `currentSize` mirrors the running
`current_size`, which counts only the encoded line bytes, not the newline
separators inserted by the join. -/
def chunkGo (chunkSize : Nat) : List String → List String → Nat → List (List String)
  | [], currentChunk, _ =>
    if currentChunk.isEmpty then [] else [currentChunk]
  | line :: rest, currentChunk, currentSize =>
    if currentSize + utf8Len line > chunkSize && !currentChunk.isEmpty then
      currentChunk :: chunkGo chunkSize rest [line] (utf8Len line)
    else
      chunkGo chunkSize rest (currentChunk ++ [line]) (currentSize + utf8Len line)

/-- The chunk groups (lists of lines) produced by `chunk_text` on `text`. -/
def chunkGroups (text : String) (chunkSize : Nat) : List (List String) :=
  chunkGo chunkSize (pySplitlines text) [] 0

/-- Model of `TextSearchEngine.chunk_text` (src/app.py lines 120-142): split `text`
into chunks, preserving line integrity; the source default for `chunkSize`
is 500000. -/
def chunk_text (text : String) (chunkSize : Nat) : List String :=
  (chunkGroups text chunkSize).map joinNl

/- ### Basic lemmas about the chunker -/

theorem utf8Len_append (a b : String) : utf8Len (a ++ b) = utf8Len a + utf8Len b := by
  simp [utf8Len, String.data_append]

theorem joinNl_cons (a : String) (l : List String) (h : l ≠ []) :
    joinNl (a :: l) = a ++ "\n" ++ joinNl l := by
  cases l with
  | nil => exact absurd rfl h
  | cons b t => rfl

theorem joinNl_append (a b : List String) (ha : a ≠ []) (hb : b ≠ []) :
    joinNl (a ++ b) = joinNl a ++ "\n" ++ joinNl b := by
  induction a with
  | nil => exact absurd rfl ha
  | cons x t ih =>
    cases t with
    | nil =>
      cases b with
      | nil => exact absurd rfl hb
      | cons y s => rfl
    | cons y s =>
      have h1 : (y :: s) ++ b ≠ [] := by simp
      rw [List.cons_append, joinNl_cons x _ h1, ih (by simp) ,
        joinNl_cons x _ (by simp)]
      simp [String.append_assoc]

theorem utf8Len_joinNl (g : List String) (h : g ≠ []) :
    utf8Len (joinNl g) = (g.map utf8Len).sum + (g.length - 1) := by
  induction g with
  | nil => exact absurd rfl h
  | cons a t ih =>
    cases t with
    | nil => simp [joinNl]
    | cons b s =>
      rw [joinNl_cons a _ (by simp), utf8Len_append, utf8Len_append,
        ih (by simp)]
      have : utf8Len "\n" = 1 := rfl
      simp [this]
      omega

theorem chunkGo_join (B : Nat) :
    ∀ (rest cur : List String) (sz : Nat), cur ≠ [] →
      (chunkGo B rest cur sz).flatten = cur ++ rest := by
  intro rest
  induction rest with
  | nil => intro cur sz h; simp [chunkGo, h]
  | cons line rest ih =>
    intro cur sz h
    by_cases hc : sz + utf8Len line > B ∧ cur ≠ []
    · have : (sz + utf8Len line > B && !cur.isEmpty) = true := by
        simp [hc.1, List.isEmpty_iff, hc.2]
      simp only [chunkGo, this, if_true, List.flatten_cons]
      rw [ih [line] (utf8Len line) (by simp)]
      simp
    · have : (sz + utf8Len line > B && !cur.isEmpty) = false := by
        rcases not_and_or.mp hc with h1 | h1
        · simp [h1]
        · simp at h1; simp [h1]
      simp only [chunkGo, this, if_false, Bool.false_eq_true]
      rw [ih (cur ++ [line]) _ (by simp)]
      simp

theorem chunkGo_mem_ne_nil (B : Nat) :
    ∀ (rest cur : List String) (sz : Nat) (g : List String), cur ≠ [] →
      g ∈ chunkGo B rest cur sz → g ≠ [] := by
  intro rest
  induction rest with
  | nil =>
    intro cur sz g h hg
    simp [chunkGo, List.isEmpty_iff, h] at hg
    simpa [hg]
  | cons line rest ih =>
    intro cur sz g h hg
    by_cases hc : sz + utf8Len line > B ∧ cur ≠ []
    · have hb : (sz + utf8Len line > B && !cur.isEmpty) = true := by
        simp [hc.1, List.isEmpty_iff, hc.2]
      simp only [chunkGo, hb, if_true, List.mem_cons] at hg
      rcases hg with rfl | hg
      · exact h
      · exact ih [line] (utf8Len line) g (by simp) hg
    · have hb : (sz + utf8Len line > B && !cur.isEmpty) = false := by
        rcases not_and_or.mp hc with h1 | h1
        · simp [h1]
        · simp at h1; simp [h1]
      simp only [chunkGo, hb, Bool.false_eq_true, if_false] at hg
      exact ih (cur ++ [line]) _ g (by simp) hg

theorem chunkGroups_join (text : String) (B : Nat) :
    (chunkGroups text B).flatten = pySplitlines text := by
  unfold chunkGroups
  cases h : pySplitlines text with
  | nil => simp [chunkGo]
  | cons l rest =>
    have hb : (0 + utf8Len l > B && !(List.isEmpty ([] : List String))) = false := by
      simp
    simp only [chunkGo, hb, Bool.false_eq_true, if_false]
    rw [chunkGo_join B rest ([] ++ [l]) _ (by simp)]
    simp

theorem chunkGroups_mem_ne_nil (text : String) (B : Nat) (g : List String)
    (hg : g ∈ chunkGroups text B) : g ≠ [] := by
  unfold chunkGroups at hg
  cases h : pySplitlines text with
  | nil => rw [h] at hg; simp [chunkGo] at hg
  | cons l rest =>
    rw [h] at hg
    have hb : (0 + utf8Len l > B && !(List.isEmpty ([] : List String))) = false := by
      simp
    simp only [chunkGo, hb, Bool.false_eq_true, if_false] at hg
    exact chunkGo_mem_ne_nil B rest ([] ++ [l]) _ g (by simp) hg

theorem joinNl_map_join (groups : List (List String))
    (h : ∀ g ∈ groups, g ≠ []) :
    joinNl (groups.map joinNl) = joinNl groups.flatten := by
  induction groups with
  | nil => rfl
  | cons g gs ih =>
    cases gs with
    | nil => simp [joinNl]
    | cons g2 t =>
      have hg : g ≠ [] := h g (by simp)
      have hg2 : g2 ≠ [] := h g2 (by simp)
      have hjoin : (g2 :: t).flatten ≠ [] := by
        cases g2 with
        | nil => exact absurd rfl hg2
        | cons c cs => simp
      rw [List.map_cons, joinNl_cons _ _ (by simp), ih (fun x hx => h x (by simp [hx]))]
      conv_rhs => rw [List.flatten_cons]
      rw [joinNl_append g _ hg hjoin]

theorem splitGo_ne_nil (cs : List Char) : ∀ acc, splitGo cs acc ≠ [] := by
  induction cs with
  | nil => intro acc; simp [splitGo]
  | cons c1 tail ih =>
    intro acc
    cases tail with
    | nil =>
      simp only [splitGo]
      split <;> simp
    | cons c2 rest =>
      simp only [splitGo]
      split
      · simp
      · split
        · simp
        · exact ih (c1 :: acc)

theorem pySplitlines_eq_nil (s : String) : pySplitlines s = [] ↔ s = "" := by
  cases s with
  | mk d =>
    cases d with
    | nil => simp [pySplitlines, splitLinesList]
    | cons c cs =>
      simp only [pySplitlines, splitLinesList, List.isEmpty_cons, Bool.false_eq_true,
        if_false, List.map_eq_nil_iff]
      constructor
      · intro h; exact absurd h (splitGo_ne_nil (c :: cs) [])
      · intro h
        have : (String.mk (c :: cs)).data = ("" : String).data := by rw [h]
        simp at this

theorem chunkGo_ne_nil (B : Nat) :
    ∀ (rest cur : List String) (sz : Nat), cur ≠ [] → chunkGo B rest cur sz ≠ [] := by
  intro rest
  induction rest with
  | nil =>
    intro cur sz h
    simp [chunkGo, List.isEmpty_iff, h]
  | cons line rest ih =>
    intro cur sz h
    by_cases hc : sz + utf8Len line > B ∧ cur ≠ []
    · have hb : (sz + utf8Len line > B && !cur.isEmpty) = true := by
        simp [hc.1, List.isEmpty_iff, hc.2]
      simp [chunkGo, hb]
    · have hb : (sz + utf8Len line > B && !cur.isEmpty) = false := by
        rcases not_and_or.mp hc with h1 | h1
        · simp [h1]
        · simp at h1; simp [h1]
      simp only [chunkGo, hb, Bool.false_eq_true, if_false]
      exact ih (cur ++ [line]) _ (by simp)

theorem chunkGo_sum_le (B : Nat) :
    ∀ (rest cur : List String) (sz : Nat),
      sz = (cur.map utf8Len).sum →
      (2 ≤ cur.length → sz ≤ B) →
      ∀ g ∈ chunkGo B rest cur sz, 2 ≤ g.length → (g.map utf8Len).sum ≤ B := by
  intro rest
  induction rest with
  | nil =>
    intro cur sz hsz hinv g hg h2
    by_cases hcur : cur = []
    · simp [chunkGo, hcur] at hg
    · simp [chunkGo, List.isEmpty_iff, hcur] at hg
      subst hg
      exact hsz ▸ hinv h2
  | cons line rest ih =>
    intro cur sz hsz hinv g hg h2
    by_cases hc : sz + utf8Len line > B ∧ cur ≠ []
    · have hb : (sz + utf8Len line > B && !cur.isEmpty) = true := by
        simp [hc.1, List.isEmpty_iff, hc.2]
      simp only [chunkGo, hb, if_true, List.mem_cons] at hg
      rcases hg with rfl | hg
      · exact hsz ▸ hinv h2
      · refine ih [line] (utf8Len line) (by simp) ?_ g hg h2
        intro habs; simp at habs
    · have hb : (sz + utf8Len line > B && !cur.isEmpty) = false := by
        rcases not_and_or.mp hc with h1 | h1
        · simp [h1]
        · simp at h1; simp [h1]
      simp only [chunkGo, hb, Bool.false_eq_true, if_false] at hg
      refine ih (cur ++ [line]) (sz + utf8Len line) (by simp [hsz]) ?_ g hg h2
      intro hlen
      by_cases hcur : cur = []
      · subst hcur; simp at hlen
      · have : ¬ sz + utf8Len line > B := by
          rcases not_and_or.mp hc with h1 | h1
          · exact h1
          · exact absurd hcur h1
        omega

/- ### C1: rejoining chunks with newlines -/

/-- C1 (corrected).  Joining the chunks with `'\n'` reproduces the
`'\n'`-join of the input's `splitlines` lines — for every input and budget.
Hence the original text is reproduced byte-for-byte exactly when the input
equals the newline-join of its own lines (no trailing line terminator, and
`'\n'` as the only separator); trailing newlines and `\r`-style separators
are normalized away, not preserved. -/
theorem chunk_join_eq_join_splitlines (text : String) (B : Nat) :
    joinNl (chunk_text text B) = joinNl (pySplitlines text) := by
  unfold chunk_text
  rw [joinNl_map_join _ (fun g hg => chunkGroups_mem_ne_nil text B g hg),
    chunkGroups_join]

/-- C1 counterexample: an input with a trailing newline (and one with a
carriage-return separator) is not reproduced byte-for-byte by rejoining
the chunks with newlines. -/
theorem chunk_join_counterexample :
    joinNl (chunk_text "a\n" 500000) = "a" ∧ "a" ≠ "a\n" ∧
    joinNl (chunk_text "a\rb" 500000) = "a\nb" ∧ "a\nb" ≠ "a\rb" := by
  refine ⟨rfl, by decide, rfl, by decide⟩

/- ### C2: chunk size bound -/

/-- C2 (corrected).  The running size in `chunk_text` counts only the
encoded line bytes, not the `'\n'` separators of the join, so a chunk of
`k ≥ 2` lines is bounded by budget + (k - 1), not by the budget itself:
the sum of its lines' UTF-8 sizes is ≤ B, and the chunk's own UTF-8 size
is ≤ B + (k - 1).  (A single-line chunk is unbounded, as the claim says:
an over-budget line is never split.) -/
theorem chunk_size_bound (text : String) (B : Nat) (g : List String)
    (hg : g ∈ chunkGroups text B) (h2 : 2 ≤ g.length) :
    (g.map utf8Len).sum ≤ B ∧ utf8Len (joinNl g) ≤ B + (g.length - 1) := by
  have hsum : (g.map utf8Len).sum ≤ B := by
    unfold chunkGroups at hg
    exact chunkGo_sum_le B (pySplitlines text) [] 0 (by simp)
      (by intro h; simp at h) g hg h2
  refine ⟨hsum, ?_⟩
  rw [utf8Len_joinNl g (by intro h; subst h; simp at h2)]
  omega

/-- C2 witness: the two-line input `"ab\ncd"` with budget 4 produces the
single group `["ab", "cd"]`; the theorem bounds its line-size sum by 4 and
the joined chunk by 4 + 1. -/
theorem chunk_size_bound_witness :
    ((["ab", "cd"] : List String).map utf8Len).sum ≤ 4 ∧
    utf8Len (joinNl ["ab", "cd"]) ≤ 4 + ((["ab", "cd"] : List String).length - 1) :=
  chunk_size_bound "ab\ncd" 4 ["ab", "cd"] (by decide) (by decide)

/-- C2 counterexample: with budget 4 the two-line input `"ab\ncd"`
(each line 2 bytes ≤ 4) yields the single 5-byte chunk `"ab\ncd"` — over
budget while consisting of more than one line, contradicting the claim
that only a single over-long line may exceed the budget. -/
theorem chunk_size_counterexample :
    chunk_text "ab\ncd" 4 = ["ab\ncd"] ∧ utf8Len "ab\ncd" = 5 ∧
    pySplitlines "ab\ncd" = ["ab", "cd"] ∧
    utf8Len "ab" ≤ 4 ∧ utf8Len "cd" ≤ 4 := by
  refine ⟨rfl, rfl, rfl, by decide, by decide⟩

/- ### C8: zero chunks iff empty input -/

theorem chunk_text_nil_iff (text : String) (B : Nat) :
    chunk_text text B = [] ↔ text = "" := by
  unfold chunk_text chunkGroups
  rw [List.map_eq_nil_iff, ← pySplitlines_eq_nil]
  cases h : pySplitlines text with
  | nil => simp [chunkGo]
  | cons l rest =>
    have hb : (0 + utf8Len l > B && !(List.isEmpty ([] : List String))) = false := by
      simp
    simp only [chunkGo, hb, Bool.false_eq_true, if_false]
    constructor
    · intro hc; exact absurd hc (chunkGo_ne_nil B rest ([] ++ [l]) _ (by simp))
    · intro hc; simp at hc

/-- C8 (corrected).  The chunker produces zero chunks exactly when the
input is empty.  (The other half of the claim fails: a chunk of a
non-empty input can be the empty string, see the counterexample.) -/
theorem chunk_empty_iff (text : String) (B : Nat) :
    chunk_text text B = [] ↔ text = "" :=
  chunk_text_nil_iff text B

/-- C8 counterexample: the non-empty input `"\n"` produces exactly one
chunk, and that chunk is the empty string — chunks of a non-empty input
are not always non-empty. -/
theorem chunk_empty_counterexample :
    ("\n" : String) ≠ "" ∧ chunk_text "\n" 500000 = [""] := by
  refine ⟨by decide, rfl⟩

/- ### C7: the 1,200,000-byte scenario -/

theorem splitGo_newline_cons (rest acc : List Char) :
    splitGo ('\n' :: rest) acc
      = acc.reverse :: (if rest.isEmpty then [] else splitGo rest []) := by
  cases rest with
  | nil => simp [splitGo, isLineBreak]
  | cons d t => simp [splitGo, isLineBreak]

theorem splitGo_no_break (pre : List Char) (hpre : ∀ c ∈ pre, isLineBreak c = false) :
    ∀ (rest acc : List Char), splitGo (pre ++ rest) acc = splitGo rest (pre.reverse ++ acc) := by
  induction pre with
  | nil => intro rest acc; simp
  | cons c pre ih =>
    intro rest acc
    have hc : isLineBreak c = false := hpre c (by simp)
    have hcr : c ≠ '\r' := by
      intro h; subst h; simp [isLineBreak] at hc
    cases hpt : pre ++ rest with
    | nil =>
      have hpre0 : pre = [] := by
        cases pre with
        | nil => rfl
        | cons x xs => simp at hpt
      have hrest0 : rest = [] := by
        subst hpre0; simpa using hpt
      subst hpre0; subst hrest0
      simp [splitGo, hc]
    | cons d t =>
      show splitGo (c :: (pre ++ rest)) acc = _
      rw [hpt]
      simp only [splitGo]
      rw [if_neg (by simp [hcr]), if_neg (by simp [hc])]
      rw [← hpt, ih (fun x hx => hpre x (by simp [hx])) rest (c :: acc)]
      simp

def manyA (n : Nat) : String := String.mk (List.replicate n 'a')

theorem utf8Len_manyA (n : Nat) : utf8Len (manyA n) = n := by
  have h1 : Char.utf8Size 'a' = 1 := by decide
  simp [utf8Len, manyA, List.map_replicate, h1, List.sum_replicate]

theorem no_break_manyA (n : Nat) : ∀ c ∈ List.replicate n 'a', isLineBreak c = false := by
  intro c hc
  rw [List.eq_of_mem_replicate hc]
  decide

theorem pySplitlines_three (n1 n2 n3 : Nat) (h3 : n3 ≠ 0) :
    pySplitlines (manyA n1 ++ "\n" ++ manyA n2 ++ "\n" ++ manyA n3)
      = [manyA n1, manyA n2, manyA n3] := by
  have hmk : ∀ l : List Char, (String.mk l).data = l := fun l => rfl
  have hnl : ("\n" : String).data = ['\n'] := rfl
  have hdata : (manyA n1 ++ "\n" ++ manyA n2 ++ "\n" ++ manyA n3).data
      = List.replicate n1 'a' ++ ('\n' ::
          (List.replicate n2 'a' ++ ('\n' :: List.replicate n3 'a'))) := by
    simp [String.data_append, manyA, hmk, hnl]
  unfold pySplitlines splitLinesList
  rw [hdata]
  have hne : (List.replicate n1 'a' ++ ('\n' ::
      (List.replicate n2 'a' ++ ('\n' :: List.replicate n3 'a')))).isEmpty = false := by
    rcases h : List.replicate n1 'a' with _ | ⟨x, xs⟩ <;> simp
  rw [hne]
  simp only [Bool.false_eq_true, if_false]
  rw [splitGo_no_break _ (no_break_manyA n1), splitGo_newline_cons]
  have hne2 : (List.replicate n2 'a' ++ ('\n' :: List.replicate n3 'a')).isEmpty = false := by
    rcases h : List.replicate n2 'a' with _ | ⟨x, xs⟩ <;> simp
  rw [hne2]
  simp only [Bool.false_eq_true, if_false]
  rw [splitGo_no_break _ (no_break_manyA n2), splitGo_newline_cons]
  have hne3 : (List.replicate n3 'a').isEmpty = false := by
    simp [List.isEmpty_iff, List.replicate_eq_nil_iff, h3]
  rw [hne3]
  simp only [Bool.false_eq_true, if_false]
  have hlast : splitGo (List.replicate n3 'a') [] = [List.replicate n3 'a'] := by
    rw [← List.append_nil (List.replicate n3 'a'),
      splitGo_no_break _ (no_break_manyA n3)]
    simp [splitGo]
  rw [hlast]
  simp [manyA]

def c7Text : String := manyA 400000 ++ "\n" ++ manyA 400000 ++ "\n" ++ manyA 399998

theorem pySplitlines_c7 :
    pySplitlines c7Text = [manyA 400000, manyA 400000, manyA 399998] := by
  unfold c7Text
  exact pySplitlines_three 400000 400000 399998 (by norm_num)

theorem chunk_text_c7 :
    chunk_text c7Text 500000 = [manyA 400000, manyA 400000, manyA 399998] := by
  unfold chunk_text chunkGroups
  rw [pySplitlines_c7]
  simp [chunkGo, utf8Len_manyA, joinNl]

theorem utf8Len_c7 : utf8Len c7Text = 1200000 := by
  unfold c7Text
  have hnl : utf8Len "\n" = 1 := rfl
  rw [utf8Len_append, utf8Len_append, utf8Len_append, utf8Len_append]
  simp [utf8Len_manyA, hnl]

/-- C7 counterexample: a 1,200,000-byte three-line input with line sizes
400,000 / 400,000 / 399,998 (none exceeding 500,000) gives exactly 3
chunks with budget 500,000, but their UTF-8 sizes sum to 1,199,998, not
1,200,000: one newline separator per chunk boundary is dropped by the
rejoin, so the claimed sum is wrong. -/
theorem scenario_sum_counterexample :
    utf8Len c7Text = 1200000 ∧
    (pySplitlines c7Text).map utf8Len = [400000, 400000, 399998] ∧
    (chunk_text c7Text 500000).length = 3 ∧
    ((chunk_text c7Text 500000).map utf8Len).sum = 1199998 ∧
    ((chunk_text c7Text 500000).map utf8Len).sum ≠ 1200000 := by
  refine ⟨utf8Len_c7, ?_, ?_, ?_, ?_⟩
  · rw [pySplitlines_c7]; simp [utf8Len_manyA]
  · rw [chunk_text_c7]; rfl
  · rw [chunk_text_c7]; simp [utf8Len_manyA]
  · rw [chunk_text_c7]; simp [utf8Len_manyA]

/-- C7 (corrected).  For the 1,200,000-byte three-line scenario input
(line sizes 400,000 / 400,000 / 399,998, none exceeding 500,000), the
chunker with budget 500,000 produces exactly 3 chunks, and their UTF-8
byte sizes sum to 1,199,998 — the original 1,200,000 bytes minus one
newline separator per chunk boundary (sum + (chunks - 1) = 1,200,000).
The chunk count is scenario-specific, not a consequence of the sizes
alone. -/
theorem c7_chunk_count : (chunk_text c7Text 500000).length = 3 := by
  rw [chunk_text_c7]
  rfl

theorem c7_chunk_sum :
    ((chunk_text c7Text 500000).map utf8Len).sum
      + ((chunk_text c7Text 500000).length - 1) = 1200000 := by
  rw [chunk_text_c7]
  rw [List.map_cons, List.map_cons, List.map_cons, List.map_nil]
  rw [utf8Len_manyA, utf8Len_manyA]
  rfl

theorem scenario_chunks :
    utf8Len c7Text = 1200000 ∧
    chunk_text c7Text 500000 = [manyA 400000, manyA 400000, manyA 399998] ∧
    (chunk_text c7Text 500000).length = 3 ∧
    ((chunk_text c7Text 500000).map utf8Len).sum
      + ((chunk_text c7Text 500000).length - 1) = 1200000 :=
  ⟨utf8Len_c7, chunk_text_c7, c7_chunk_count, c7_chunk_sum⟩

/- ### Ingestion: the document generator and the progress ledger -/

/-- A file visited by the directory walk: basename, full path, and decoded
text content.  Reading with `errors='ignore'` is modelled by taking the
decoded content as given; `os.path.getsize` is modelled as the content's
UTF-8 size, so an empty file is exactly one with empty content. -/
structure FileEntry where
  filename : String
  filepath : String
  content : String
deriving DecidableEq, Repr

/-- One document yielded per chunk (src/app.py lines 215-228).
`indexed_date` (a wall-clock timestamp) is not modelled. -/
structure IndexDocument where
  content : String
  filename : String
  filepath : String
  file_hash : String
  chunk_number : Nat
  total_chunks : Nat
  file_size : Nat
deriving DecidableEq, Repr

/-- The documents yielded for one file (src/app.py lines 209-228); the
content fingerprint `hashlib.md5(...).hexdigest()` is abstracted as the
parameter `fingerprint`. -/
def fileDocs (fingerprint : String → String) (fe : FileEntry) : List IndexDocument :=
  (chunk_text fe.content 500000).enum.map (fun p =>
    { content := p.2, filename := fe.filename, filepath := fe.filepath,
      file_hash := fingerprint fe.content, chunk_number := p.1,
      total_chunks := (chunk_text fe.content 500000).length,
      file_size := utf8Len fe.content })

/-- Result of a `generate_documents` run: the yielded documents, the final
in-memory ledger (`indexed_files`), and the final on-disk ledger (the
persisted `indexing_progress.json`). -/
structure GenResult where
  docs : List IndexDocument
  ledgerMem : List String
  ledgerDisk : List String
deriving DecidableEq, Repr

/-- Model of `generate_documents` (src/app.py lines 176-237) over an abstract
directory listing.  Per file: skip if already in the in-memory ledger
(line 188), skip if empty (line 193), otherwise yield one document per
chunk, then add the path to the in-memory set (line 231, before the
write) and attempt to persist the whole set (lines 232-233).
`persistOk` says whether that write succeeds; on failure the on-disk
ledger is left unchanged and the per-file `except` (lines 235-237)
swallows the exception, so generation continues with the next file.
(Per-file read errors and the unlocked progress-tracker writes of lines
183-185 are modelled elsewhere; see `indexDirectoryAccesses`.) -/
def generate_documents (fingerprint : String → String) (persistOk : String → Bool) :
    List String → List String → List FileEntry → GenResult
  | mem, disk, [] => ⟨[], mem, disk⟩
  | mem, disk, fe :: rest =>
    if fe.filepath ∈ mem then generate_documents fingerprint persistOk mem disk rest
    else if utf8Len fe.content = 0 then generate_documents fingerprint persistOk mem disk rest
    else
      let mem' := fe.filepath :: mem
      let disk' := if persistOk fe.filepath then mem' else disk
      let r := generate_documents fingerprint persistOk mem' disk' rest
      ⟨fileDocs fingerprint fe ++ r.docs, r.ledgerMem, r.ledgerDisk⟩

theorem char_utf8Size_pos (c : Char) : 0 < c.utf8Size :=
  Char.utf8Size_pos c

theorem utf8Len_eq_zero (s : String) : utf8Len s = 0 ↔ s = "" := by
  cases s with
  | mk d =>
    cases d with
    | nil => constructor <;> intro h <;> rfl
    | cons c cs =>
      constructor
      · intro h
        exfalso
        have hpos : 0 < Char.utf8Size c := char_utf8Size_pos c
        have hval : utf8Len (String.mk (c :: cs))
            = Char.utf8Size c + (cs.map Char.utf8Size).sum := by
          simp [utf8Len]
        omega
      · intro h
        have : (String.mk (c :: cs)).data = ("" : String).data := by rw [h]
        simp at this

theorem fileDocs_ne_nil (fingerprint : String → String) (fe : FileEntry)
    (h : fe.content ≠ "") : fileDocs fingerprint fe ≠ [] := by
  have hch : chunk_text fe.content 500000 ≠ [] := by
    rw [ne_eq, chunk_text_nil_iff]
    exact h
  simp [fileDocs, List.map_eq_nil_iff]
  intro habs
  exact hch habs

theorem fileDocs_filepath (fingerprint : String → String) (fe : FileEntry)
    (d : IndexDocument) (hd : d ∈ fileDocs fingerprint fe) :
    d.filepath = fe.filepath := by
  simp only [fileDocs, List.mem_map] at hd
  obtain ⟨p, hp, rfl⟩ := hd
  rfl

theorem gen_docs_notin_mem (fingerprint : String → String) (persistOk : String → Bool) :
    ∀ (files : List FileEntry) (mem disk : List String)
      (d : IndexDocument),
      d ∈ (generate_documents fingerprint persistOk mem disk files).docs →
      d.filepath ∉ mem := by
  intro files
  induction files with
  | nil =>
    intro mem disk d hd
    simp [generate_documents] at hd
  | cons fe rest ih =>
    intro mem disk d hd
    by_cases h1 : fe.filepath ∈ mem
    · rw [generate_documents, if_pos h1] at hd
      exact ih mem disk d hd
    · rw [generate_documents, if_neg h1] at hd
      by_cases h2 : utf8Len fe.content = 0
      · rw [if_pos h2] at hd
        exact ih mem disk d hd
      · rw [if_neg h2] at hd
        simp only [List.mem_append] at hd
        rcases hd with hd | hd
        · rw [fileDocs_filepath fingerprint fe d hd]
          exact h1
        · intro habs
          exact ih (fe.filepath :: mem) _ d hd (by simp [habs])

theorem gen_docs_covers (fingerprint : String → String) (persistOk : String → Bool) :
    ∀ (files : List FileEntry) (mem disk : List String) (fe : FileEntry),
      fe ∈ files → fe.filepath ∉ mem → fe.content ≠ "" →
      ∃ d ∈ (generate_documents fingerprint persistOk mem disk files).docs,
        d.filepath = fe.filepath := by
  intro files
  induction files with
  | nil => intro mem disk fe hfe; simp at hfe
  | cons g rest ih =>
    intro mem disk fe hfe hmem hne
    rcases List.mem_cons.mp hfe with rfl | hfe
    · rw [generate_documents, if_neg hmem,
        if_neg (by rw [ne_eq, ← utf8Len_eq_zero] at hne; exact hne)]
      obtain ⟨d, hd⟩ := List.exists_mem_of_ne_nil _ (fileDocs_ne_nil fingerprint fe hne)
      exact ⟨d, by simp [hd], fileDocs_filepath fingerprint fe d hd⟩
    · by_cases h1 : g.filepath ∈ mem
      · rw [generate_documents, if_pos h1]
        exact ih mem disk fe hfe hmem hne
      · rw [generate_documents, if_neg h1]
        by_cases h2 : utf8Len g.content = 0
        · rw [if_pos h2]
          exact ih mem disk fe hfe hmem hne
        · rw [if_neg h2]
          by_cases h3 : fe.filepath = g.filepath
          · obtain ⟨d, hd⟩ := List.exists_mem_of_ne_nil _
              (fileDocs_ne_nil fingerprint g (by rw [ne_eq, ← utf8Len_eq_zero]; exact h2))
            refine ⟨d, by simp [hd], ?_⟩
            rw [fileDocs_filepath fingerprint g d hd, h3]
          · obtain ⟨d, hd, hdp⟩ := ih (g.filepath :: mem)
              (if persistOk g.filepath then g.filepath :: mem else disk) fe hfe
              (by simp [hmem, h3]) hne
            exact ⟨d, by simp [hd], hdp⟩

theorem gen_docs_all_skipped (fingerprint : String → String) (persistOk : String → Bool) :
    ∀ (files : List FileEntry) (mem disk : List String),
      (∀ fe ∈ files, fe.filepath ∈ mem) →
      (generate_documents fingerprint persistOk mem disk files).docs = [] := by
  intro files
  induction files with
  | nil => intro mem disk h; simp [generate_documents]
  | cons fe rest ih =>
    intro mem disk h
    rw [generate_documents, if_pos (h fe (by simp))]
    exact ih mem disk (fun g hg => h g (by simp [hg]))

/- ### C3: ledger filtering (skip indexed files, index the rest) -/

/-- C3 (confirmed).  With a loaded ledger: (1) every generated document
belongs to a file whose path is not in the ledger; (2) every listed file
whose path is not in the ledger and whose content is non-empty
contributes at least one document; (3) if every listed file is already in
the ledger, the run generates zero documents.  (`persistOk` and `disk`
are arbitrary: the yielded documents never depend on persistence
outcomes.) -/
theorem ledger_filtering (fingerprint : String → String) (persistOk : String → Bool)
    (ledger disk : List String) (files : List FileEntry) :
    (∀ d ∈ (generate_documents fingerprint persistOk ledger disk files).docs,
        d.filepath ∉ ledger)
    ∧ (∀ fe ∈ files, fe.filepath ∉ ledger → fe.content ≠ "" →
        ∃ d ∈ (generate_documents fingerprint persistOk ledger disk files).docs,
          d.filepath = fe.filepath)
    ∧ ((∀ fe ∈ files, fe.filepath ∈ ledger) →
        (generate_documents fingerprint persistOk ledger disk files).docs = []) :=
  ⟨fun d hd => gen_docs_notin_mem fingerprint persistOk files ledger disk d hd,
   fun fe hfe h1 h2 => gen_docs_covers fingerprint persistOk files ledger disk fe hfe h1 h2,
   fun h => gen_docs_all_skipped fingerprint persistOk files ledger disk h⟩

/-- C3 witness: with ledger `{A, B}` and directory `[A, B]` the run yields
zero documents; adding file `C` yields a document for `C`. -/
theorem ledger_filtering_witness :
    (generate_documents (fun s => s) (fun _ => true) ["A", "B"] ["A", "B"]
      [⟨"a", "A", "x"⟩, ⟨"b", "B", "y"⟩]).docs = []
    ∧ ∃ d ∈ (generate_documents (fun s => s) (fun _ => true) ["A", "B"] ["A", "B"]
        [⟨"a", "A", "x"⟩, ⟨"b", "B", "y"⟩, ⟨"c", "C", "z"⟩]).docs,
        d.filepath = "C" :=
  ⟨(ledger_filtering (fun s => s) (fun _ => true) ["A", "B"] ["A", "B"]
      [⟨"a", "A", "x"⟩, ⟨"b", "B", "y"⟩]).2.2 (by decide),
   (ledger_filtering (fun s => s) (fun _ => true) ["A", "B"] ["A", "B"]
      [⟨"a", "A", "x"⟩, ⟨"b", "B", "y"⟩, ⟨"c", "C", "z"⟩]).2.1
      ⟨"c", "C", "z"⟩ (by decide) (by decide) (by decide)⟩

/- ### C6: ledger persist failure -/

/-- C6 counterexample: files `A` then `B`, persisting fails for `A` and
succeeds for `B`.  Because `indexed_files.add(filepath)` (src/app.py line
231) runs before the write, `B`'s successful persist writes the whole
in-memory set — including `A` — to disk: `A` ends up recorded as complete
even though its own persist failed, so it would NOT be re-processed on a
future run, contradicting the claim. -/
theorem persist_failure_counterexample :
    ((fun p : String => p == "B") "A") = false
    ∧ "A" ∈ (generate_documents (fun s => s) (fun p => p == "B") [] []
        [⟨"a", "A", "x"⟩, ⟨"b", "B", "y"⟩]).ledgerDisk := by
  exact ⟨rfl, by decide⟩

/-- C6 (corrected).  When persisting the ledger fails for a file that was
just processed, the failure is absorbed (the per-file handler catches it)
and generation continues with the remaining files; that persist attempt
leaves the on-disk ledger unchanged.  However the file has already been
added to the in-memory ledger, so any later successful persist records it
as complete on disk; it stays eligible for re-processing on a future run
only if no later persist succeeds. -/
theorem persist_failure_step (fingerprint : String → String) (persistOk : String → Bool)
    (mem disk : List String) (fe : FileEntry) (rest : List FileEntry)
    (h1 : fe.filepath ∉ mem) (h2 : fe.content ≠ "")
    (h3 : persistOk fe.filepath = false) :
    generate_documents fingerprint persistOk mem disk (fe :: rest)
      = ⟨fileDocs fingerprint fe
            ++ (generate_documents fingerprint persistOk (fe.filepath :: mem) disk rest).docs,
          (generate_documents fingerprint persistOk (fe.filepath :: mem) disk rest).ledgerMem,
          (generate_documents fingerprint persistOk (fe.filepath :: mem) disk rest).ledgerDisk⟩ := by
  rw [generate_documents, if_neg h1,
    if_neg (by rw [ne_eq, ← utf8Len_eq_zero] at h2; exact h2)]
  simp [h3]

/-- C6 witness: a one-file run whose persist fails — the step equation at
a concrete input. -/
theorem persist_failure_step_witness :
    generate_documents (fun s => s) (fun _ => false) [] [] [⟨"a", "A", "x"⟩]
      = ⟨fileDocs (fun s => s) ⟨"a", "A", "x"⟩
            ++ (generate_documents (fun s => s) (fun _ => false) ["A"] [] []).docs,
          (generate_documents (fun s => s) (fun _ => false) ["A"] [] []).ledgerMem,
          (generate_documents (fun s => s) (fun _ => false) ["A"] [] []).ledgerDisk⟩ :=
  persist_failure_step (fun s => s) (fun _ => false) [] [] ⟨"a", "A", "x"⟩ []
    (by decide) (by decide) rfl

/- ### The batch submitter (src/app.py lines 239-273) -/

/-- The bulk-submission loop of `index_directory` (src/app.py lines
239-273).  `bulk i` is the outcome of the `i`-th `helpers.bulk` call:
`Except.error ()` models a raised submission exception, `Except.ok k`
models `bulk_response[0] = k` successfully written documents.  The
counters are Python ints, modelled as `Int`.  The loop takes up to
`batchSize` documents per iteration; a batch shorter than `batchSize`
(`StopIteration` mid-fill) is the final batch, submitted the same way,
after which the loop breaks; an empty batch just breaks.  The 0.1 s
rate-limiting sleep is not modelled; `batchSize = 0` would loop forever
in the source (never consuming the generator) and is returned unchanged
here — the source default is 5. -/
def index_batches {α : Type} (bulk : Nat → Except Unit Nat) (batchSize : Nat)
    (i : Nat) (docs : List α) (success failed : Int) : Int × Int :=
  if batchSize = 0 then (success, failed)
  else if docs.isEmpty then (success, failed)
  else if docs.length < batchSize then
    match bulk i with
    | .ok k => (success + k, failed + ((docs.length : Int) - k))
    | .error _ => (success, failed + docs.length)
  else
    match bulk i with
    | .ok k =>
      index_batches bulk batchSize (i + 1) (docs.drop batchSize)
        (success + k) (failed + ((batchSize : Int) - k))
    | .error _ =>
      index_batches bulk batchSize (i + 1) (docs.drop batchSize)
        success (failed + batchSize)
termination_by docs.length
decreasing_by
  all_goals
    simp only [List.length_drop]
    omega

/-- The whole submission phase: `success, failed = 0, 0` then the loop
(src/app.py line 239). -/
def index_directory_submit {α : Type} (bulk : Nat → Except Unit Nat)
    (batchSize : Nat) (docs : List α) : Int × Int :=
  index_batches bulk batchSize 0 docs 0 0

theorem index_batches_nil {α : Type} (bulk : Nat → Except Unit Nat)
    (batchSize i : Nat) (success failed : Int) :
    index_batches (α := α) bulk batchSize i [] success failed = (success, failed) := by
  unfold index_batches
  simp

theorem index_batches_step {α : Type} (bulk : Nat → Except Unit Nat) (batchSize : Nat)
    (i : Nat) (docs : List α) (success failed : Int)
    (hbs : 0 < batchSize) (hdocs : docs ≠ []) :
    index_batches bulk batchSize i docs success failed
      = match bulk i with
        | .ok k =>
          index_batches bulk batchSize (i + 1) (docs.drop batchSize)
            (success + k) (failed + (((min batchSize docs.length : Nat) : Int) - k))
        | .error _ =>
          index_batches bulk batchSize (i + 1) (docs.drop batchSize)
            success (failed + ((min batchSize docs.length : Nat) : Int)) := by
  have hbs0 : batchSize ≠ 0 := by omega
  have hde : docs.isEmpty = false := by
    simp [List.isEmpty_iff, hdocs]
  by_cases hlt : docs.length < batchSize
  · have hdrop : docs.drop batchSize = [] := by
      apply List.drop_eq_nil_of_le
      omega
    have hmin : min batchSize docs.length = docs.length := by omega
    rw [index_batches, if_neg hbs0]
    rw [hde]
    simp only [Bool.false_eq_true, if_false, if_pos hlt]
    cases hbulk : bulk i with
    | ok k =>
      simp only [hdrop, index_batches_nil, hmin]
    | error e =>
      simp only [hdrop, index_batches_nil, hmin]
  · have hmin : min batchSize docs.length = batchSize := by omega
    rw [index_batches, if_neg hbs0]
    rw [hde]
    simp only [Bool.false_eq_true, if_false, if_neg hlt, hmin]

/-- C4 (confirmed).  Per batch: a bulk result of `k` successes on a batch
of `n = min batchSize remaining` documents adds `k` to the success
counter and `n - k` to the failure counter; a raised submission exception
adds the whole batch size `n` to the failure counter; in both cases the
loop continues with the next batch (when the batch was the final partial
one, the continuation starts from the empty list and stops — the partial
batch is accounted exactly the same way). -/
theorem batch_accounting {α : Type} (bulk : Nat → Except Unit Nat) (batchSize : Nat)
    (i : Nat) (docs : List α) (success failed : Int)
    (hbs : 0 < batchSize) (hdocs : docs ≠ []) :
    index_batches bulk batchSize i docs success failed
      = match bulk i with
        | .ok k =>
          index_batches bulk batchSize (i + 1) (docs.drop batchSize)
            (success + k) (failed + (((min batchSize docs.length : Nat) : Int) - k))
        | .error _ =>
          index_batches bulk batchSize (i + 1) (docs.drop batchSize)
            success (failed + ((min batchSize docs.length : Nat) : Int)) :=
  index_batches_step bulk batchSize i docs success failed hbs hdocs

/-- C4 witness: a batch of 5 documents whose bulk call reports 3
successes yields `success = 3, failed = 2`. -/
theorem batch_accounting_witness :
    index_batches (fun _ => Except.ok 3) 5 0 ([0, 1, 2, 3, 4] : List Nat) 0 0 = (3, 2) := by
  have h := batch_accounting (fun _ => Except.ok 3) 5 0 ([0, 1, 2, 3, 4] : List Nat) 0 0
    (by norm_num) (by simp)
  simp only [List.length_cons, List.length_nil, List.drop_succ_cons, List.drop_nil,
    index_batches_nil] at h
  rw [h]
  norm_num

theorem index_batches_sum {α : Type} (bulk : Nat → Except Unit Nat) (batchSize : Nat)
    (hbs : 0 < batchSize) :
    ∀ (n : Nat) (docs : List α), docs.length ≤ n → ∀ (i : Nat) (s f : Int),
      (index_batches bulk batchSize i docs s f).1
        + (index_batches bulk batchSize i docs s f).2 = s + f + docs.length := by
  intro n
  induction n with
  | zero =>
    intro docs hlen i s f
    have hd : docs = [] := List.length_eq_zero.mp (by omega)
    subst hd
    simp [index_batches_nil]
  | succ n ih =>
    intro docs hlen i s f
    by_cases hd : docs = []
    · subst hd; simp [index_batches_nil]
    · rw [index_batches_step bulk batchSize i docs s f hbs hd]
      have hdl : 0 < docs.length := List.length_pos.mpr hd
      have hdrop : (docs.drop batchSize).length ≤ n := by
        simp only [List.length_drop]
        omega
      cases hbulk : bulk i with
      | ok k =>
        have h2 := ih (docs.drop batchSize) hdrop (i + 1)
          (s + k) (f + (((min batchSize docs.length : Nat) : Int) - k))
        simp only [h2, List.length_drop]
        push_cast
        omega
      | error e =>
        have h2 := ih (docs.drop batchSize) hdrop (i + 1)
          s (f + ((min batchSize docs.length : Nat) : Int))
        simp only [h2, List.length_drop]
        push_cast
        omega

/-- C10 (confirmed).  At the end of a submission run over any document
sequence (with a positive batch size, the source default being 5),
`success + failed` equals the number of documents consumed: every
document is counted exactly once, across full batches, exception-failed
batches and the final partial batch. -/
theorem success_failed_partition {α : Type} (bulk : Nat → Except Unit Nat)
    (batchSize : Nat) (docs : List α) (hbs : 0 < batchSize) :
    (index_directory_submit bulk batchSize docs).1
      + (index_directory_submit bulk batchSize docs).2 = docs.length := by
  unfold index_directory_submit
  have h := index_batches_sum bulk batchSize hbs docs.length docs le_rfl 0 0 0
  simpa using h

/-- C10 witness: 7 documents in batches of 5 with the first bulk call
reporting 3 successes and the second raising — the counters still sum
to 7. -/
theorem success_failed_partition_witness :
    (index_directory_submit (fun i => if i = 0 then Except.ok 3 else Except.error ()) 5
        ([0, 1, 2, 3, 4, 5, 6] : List Nat)).1
      + (index_directory_submit (fun i => if i = 0 then Except.ok 3 else Except.error ()) 5
        ([0, 1, 2, 3, 4, 5, 6] : List Nat)).2 = (7 : Int) := by
  have h := success_failed_partition
    (fun i => if i = 0 then Except.ok 3 else Except.error ()) 5
    ([0, 1, 2, 3, 4, 5, 6] : List Nat) (by norm_num)
  simpa using h

/- ### The percent-complete computation of /indexing-status -/

/-- Rounding to two decimal places: Python `round(x, 2)`.  Exact rational
arithmetic stands in for the source's binary floats; ties round half-up
here where Python rounds the nearest float half-to-even — the values
considered in the claims are not ties. -/
def round2 (x : ℚ) : ℚ := ((round (x * 100) : ℤ) : ℚ) / 100

/-- The `percent_complete` field of `get_indexing_status` (src/app.py
line 71): `round((current_size / total_size * 100) if total_size > 0
else 0, 2)`.  A total function: the `total_size > 0` guard removes the
division by zero, so the computation never raises. -/
def percent_complete (currentSize totalSize : Nat) : ℚ :=
  round2 (if 0 < totalSize then (currentSize : ℚ) / totalSize * 100 else 0)

/-- C5 (corrected).  The computation is total (never raises): it returns
0 when `total_size = 0`, and otherwise `current_size / total_size * 100`
rounded to two decimal places — the claim omits the rounding, and the
example 4,000,000 / 10,000,000 indeed yields exactly 40. -/
theorem percent_complete_spec :
    (∀ c : Nat, percent_complete c 0 = 0)
    ∧ (∀ c t : Nat, 0 < t →
        percent_complete c t = round2 ((c : ℚ) / t * 100))
    ∧ percent_complete 4000000 10000000 = 40 := by
  refine ⟨?_, ?_, ?_⟩
  · intro c
    simp [percent_complete, round2]
  · intro c t ht
    simp [percent_complete, ht]
  · have h40 : ((4000000 : ℚ) / 10000000 * 100) = 40 := by norm_num
    simp only [percent_complete, round2, if_pos (by norm_num : (0 : Nat) < 10000000)]
    push_cast
    rw [h40]
    norm_num [round_eq]

/-- C5 witness: the guarded branch applied at `current_size = 4,000,000`,
`total_size = 10,000,000`. -/
theorem percent_complete_spec_witness :
    percent_complete 4000000 10000000 = round2 ((4000000 : ℚ) / 10000000 * 100) :=
  percent_complete_spec.2.1 4000000 10000000 (by norm_num)

/-- C5 counterexample: at `current_size = 1`, `total_size = 3` the code
returns 33.33 (two-decimal rounding), not `1 / 3 * 100 = 100/3` as the
claim's unrounded formula states. -/
theorem percent_rounding_counterexample :
    percent_complete 1 3 ≠ (1 : ℚ) / 3 * 100 := by
  unfold percent_complete round2
  rw [if_pos (by norm_num : (0 : Nat) < 3)]
  push_cast
  norm_num [round_eq]

/- ### C9: lock discipline of the shared progress record -/

/-- The fields of the shared `IndexingStatus` record
(src/app.py lines 14-23). -/
inductive TrackerField where
  | isIndexing
  | filesIndexed
  | totalFiles
  | currentFile
  | currentSize
  | totalSize
  | startTime
deriving DecidableEq, Repr

/-- One read or write of a tracker field as it appears in the source,
with whether the statement executes while holding `progress_lock`. -/
structure TrackerAccess where
  fld : TrackerField
  isWrite : Bool
  underLock : Bool
deriving DecidableEq, Repr

/-- The field reads of the `/indexing-status` handler (src/app.py lines
64-71, plus `get_elapsed_time`'s read of `start_time` at lines 33-35):
the handler builds its JSON straight from the fields, with no
`progress_lock` acquisition anywhere in it. -/
def statusEndpointAccesses : List TrackerAccess :=
  [⟨.isIndexing, false, false⟩, ⟨.filesIndexed, false, false⟩,
   ⟨.totalFiles, false, false⟩, ⟨.currentFile, false, false⟩,
   ⟨.currentSize, false, false⟩, ⟨.totalSize, false, false⟩,
   ⟨.startTime, false, false⟩, ⟨.currentSize, false, false⟩,
   ⟨.totalSize, false, false⟩]

/-- The tracker writes of `index_directory` (src/app.py lines 172-174)
and of its `generate_documents` (lines 183-185): totals, start time and
the per-file progress fields are assigned without taking the lock. -/
def indexDirectoryAccesses : List TrackerAccess :=
  [⟨.totalFiles, true, false⟩, ⟨.totalSize, true, false⟩,
   ⟨.startTime, true, false⟩, ⟨.filesIndexed, true, false⟩,
   ⟨.currentSize, true, false⟩, ⟨.currentFile, true, false⟩]

/-- The `is_indexing` transitions of `start_indexing` (src/app.py lines
49-50 and 54-55): the only tracker accesses that do execute inside
`with indexing_status.progress_lock`. -/
def orchestratorAccesses : List TrackerAccess :=
  [⟨.isIndexing, true, true⟩, ⟨.isIndexing, true, true⟩]

/-- Every tracker access in the source. -/
def allTrackerAccesses : List TrackerAccess :=
  statusEndpointAccesses ++ indexDirectoryAccesses ++ orchestratorAccesses

/-- C9 (code bug).  The claim — every read and write of the shared
record holds the mutual-exclusion lock — fails on the source: not a
single access of the status endpoint or of the document generator takes
`progress_lock`; only the two `is_indexing` transitions in
`start_indexing` do.  (The lock exists and is named for this purpose, so
the unlocked accesses read as the slip.) -/
theorem tracker_lock_audit :
    allTrackerAccesses.all (fun a => a.underLock) = false
    ∧ (statusEndpointAccesses ++ indexDirectoryAccesses).all
        (fun a => !a.underLock) = true
    ∧ orchestratorAccesses.all (fun a => a.underLock) = true := by
  exact ⟨rfl, rfl, rfl⟩
